import Mathlib

/-!
Verification of the s-downloader-server core against its specification.

The decryptor (`src/urlDecryptor.js`) is embedded over `List Nat`: a JS
string is modelled as the list of its UTF-16 code units (`charCodeAt` /
`String.fromCharCode` values).  JS `<<` truncates its operand to 32 bits,
so the bit accumulator of `registerCharPool` is tracked modulo 2^32.
The download manager (`src/downloadManager.js`) is embedded as pure
transitions on an explicit state (cache map plus a model of the files on
disk); the outcome of the network fetch / stream write is an explicit
parameter (`none` = success, `some msg` = the failure's message).
-/

namespace SDownloader

/-! ## urlDecryptor.js -/

/-- The fixed embedded key string (code units of `SECRET_KEY`). -/
def SECRET_KEY : List Nat :=
  ("TT18WlV5TXVeLXFXYn1WTF5qSmR9TXYpOHklYlFXWGY+SUZCRGNKPiU0emcyQ2l8dGVsamBkVlpA").toList.map Char.toNat

/-- Code units of the 64-symbol alphabet `A-Z a-z 0-9 + /`, in order.
In the source a dictionary `k` maps `alphabet[i] ↦ i`. -/
def alphabetCodes : List Nat :=
  ("ABCDEFGHIJKLMNOPQRSTUVWXYZabcdefghijklmnopqrstuvwxyz0123456789+/").toList.map Char.toNat

/-- `k[index] !== undefined ? k[index] : 0`: the 6-bit value of a symbol,
0 for characters outside the alphabet.  (`List.indexOf` returns the list's
length when the element is absent.) -/
def sixBitValue (ch : Nat) : Nat :=
  let i := alphabetCodes.indexOf ch
  if i < 64 then i else 0

/-- The `while (c >= 8)` loop body of `registerCharPool`: extract the high
8 bits `(l >>> c') &&& 255` while at least 8 bits are pending, emitting a
zero byte only when `keep` is set (`b !== 0 || d < h - 2`).  The loop
decreases `c` by 8 each pass, so running it with `fuel := c` never exhausts
the fuel; it returns the emitted bytes and the final bit count. -/
def drainAcc (l : Nat) (keep : Bool) : Nat → Nat → List Nat × Nat
  | 0, c => ([], c)
  | fuel + 1, c =>
    if 8 ≤ c then
      let c2 := c - 8
      let b := (l >>> c2) &&& 255
      let r := drainAcc l keep fuel c2
      ((if b ≠ 0 ∨ keep = true then b :: r.1 else r.1), r.2)
    else ([], c)

/-- The per-character loop of `registerCharPool` over the remaining input.
`l` is the JS accumulator tracked modulo 2^32 (JS `<<` is a 32-bit shift),
`c` the pending bit count.  The source's emission guard `d < h - 2`
(current index strictly before the last two symbols) is exactly
`2 ≤ rest.length` for the list `rest` of symbols after the current one. -/
def charPoolGo : Nat → Nat → List Nat → List Nat
  | _, _, [] => []
  | l, c, ch :: rest =>
    let a := sixBitValue ch
    let l2 := ((l <<< 6) + a) % 4294967296
    let c2 := c + 6
    let keep := decide (2 ≤ rest.length)
    let r := drainAcc l2 keep c2 c2
    r.1 ++ charPoolGo l2 r.2 rest

/-- `registerCharPool(key)`: decodes a base64-like character pool. -/
def registerCharPool (key : List Nat) : List Nat :=
  charPoolGo 0 0 key

/-- `REGISTERED_SECRET_CHAR_POOL = registerCharPool(SECRET_KEY)`,
computed once at module load. -/
def REGISTERED_SECRET_CHAR_POOL : List Nat :=
  registerCharPool SECRET_KEY

/-- The three-line swap `temp = a[i]; a[i] = a[j]; a[j] = temp`. -/
def listSwap (S : List Nat) (i j : Nat) : List Nat :=
  let ti := S.getD i 0
  let tj := S.getD j 0
  (S.set i tj).set j ti

/-- Key-scheduling algorithm of `processRecording` (lines 64-78): start
from the identity permutation `a[i] = i` and for `b = 0..255` update
`h = (h + a[b] + key[b % key.length]) % 256`, then swap `a[b]` and `a[h]`. -/
def ksa (key : List Nat) : List Nat × Nat :=
  (List.range 256).foldl
    (fun p b =>
      let S := p.1
      let h2 := (p.2 + S.getD b 0 + key.getD (b % key.length) 0) % 256
      (listSwap S b h2, h2))
    (List.range 256, 0)

/-- PRGA of `processRecording` (lines 80-97): for each input code unit,
advance `b`, `h`, swap, take the keystream byte
`a[(a[b] + a[h]) % 256]` and XOR it with the input unit. -/
def prga (S : List Nat) (b h : Nat) : List Nat → List Nat
  | [] => []
  | x :: rest =>
    let b2 := (b + 1) % 256
    let h2 := (h + S.getD b2 0) % 256
    let S2 := listSwap S b2 h2
    let ks := S2.getD ((S2.getD b2 0 + S2.getD h2 0) % 256) 0
    (x ^^^ ks) :: prga S2 b2 h2 rest

/-- The stream-cipher engine as inlined in `processRecording`: KSA over
the key (with `b` and `h` reset to 0 afterwards), then the PRGA
XOR-combine over the input. -/
def rc4Process (key input : List Nat) : List Nat :=
  prga (ksa key).1 0 0 input

/-- Code units of the obfuscation marker `"e:"`. -/
def eMarker : List Nat := [101, 58]

/-- Code units of `"http"`. -/
def httpCodes : List Nat := [104, 116, 116, 112]

/-- The error thrown by `processRecording` when the decoded string fails
the `"http"` check; its message interpolates the original input and the
malformed decoded output. -/
structure DecodeValidationError where
  original : List Nat
  decoded : List Nat
deriving DecidableEq

/-- `processRecording(urlEncoded)`: return non-encoded input unchanged,
otherwise decode the marker-stripped remainder with `registerCharPool`,
decrypt it with the RC4 engine under the secret pool, and return the
result only if it starts with `"http"`; otherwise throw. -/
def processRecording (urlEncoded : List Nat) : Except DecodeValidationError (List Nat) :=
  if urlEncoded.length < 2 ∨ ¬ (eMarker.isPrefixOf urlEncoded = true) then
    .ok urlEncoded
  else
    let publicCharPool := registerCharPool (urlEncoded.drop 2)
    let urlDecoded := rc4Process REGISTERED_SECRET_CHAR_POOL publicCharPool
    if httpCodes.isPrefixOf urlDecoded = true then
      .ok urlDecoded
    else
      .error ⟨urlEncoded, urlDecoded⟩

/-- `processRecording` with the secret pool abstracted: `processRecording`
is this function applied to the module-level constant. -/
def processRecordingWith (pool : List Nat) (urlEncoded : List Nat) :
    Except DecodeValidationError (List Nat) :=
  if urlEncoded.length < 2 ∨ ¬ (eMarker.isPrefixOf urlEncoded = true) then
    .ok urlEncoded
  else
    let publicCharPool := registerCharPool (urlEncoded.drop 2)
    let urlDecoded := rc4Process pool publicCharPool
    if httpCodes.isPrefixOf urlDecoded = true then
      .ok urlDecoded
    else
      .error ⟨urlEncoded, urlDecoded⟩

/-- `decryptMediaUrl(mediaUrl)`: `null` (and the empty string, both falsy)
map to `null`; otherwise delegate to `processRecording`.  A JS value that
is a string or `null` is modelled as `Option (List Nat)`. -/
def decryptMediaUrl : Option (List Nat) → Except DecodeValidationError (Option (List Nat))
  | none => .ok none
  | some s => if s.isEmpty then .ok none else (processRecording s).map some

/-! ## downloadManager.js

Paths are modelled as lists of segments: `path.join(d, f)` is `[d, f]`
and `path.basename` is the last segment.  The fetch/write performed by
`downloadFile` is modelled by an explicit outcome parameter, and the
freshly generated `uuidv4()` identifier, like `Date.now()`, is a
parameter.  A pending `setTimeout` handle is stored with its cache entry
(`cleanupTimer`), so removing the entry cancels the timer; the timer
firing later is modelled as a further `cleanupDownload` call. -/

def DOWNLOAD_DIR : String := "./downloads"

def CLEANUP_TIMEOUT : Nat := 60 * 60 * 1000

/-- The `metadata` argument of `downloadFile`. -/
structure InputMetadata where
  videoMediaMp4Url : Option String
  title : Option String
  artist : Option String
deriving DecidableEq

/-- JS truthiness of an optional string (`undefined`/`null` and `""` are
falsy). -/
def jsTruthy : Option String → Bool
  | none => false
  | some s => !(s == "")

/-- The `metadata` object stored in the cache by `downloadFile`. -/
structure StoredMetadata where
  title : Option String
  artist : Option String
  createdAt : Nat
  extension : String
deriving DecidableEq

/-- A `downloadCache` entry: `{ filePath, cleanupTimer, metadata }`. -/
structure CacheEntry where
  filePath : List String
  cleanupTimer : Bool
  metadata : StoredMetadata
deriving DecidableEq

/-- The download manager's state: the `downloadCache` map (an association
list with JS `Map` lookup/overwrite semantics) and the set of files
existing on disk. -/
structure DMState where
  downloadCache : List (String × CacheEntry)
  files : List (List String)
deriving DecidableEq

/-- The value returned by a successful `downloadFile` call. -/
structure DownloadResult where
  downloadId : String
  filePath : List String
  fileName : String
deriving DecidableEq

/-- The `Download failed: ...` error thrown by `downloadFile`. -/
structure DownloadFailedError where
  message : String
deriving DecidableEq

/-- The extension chosen by `downloadFile`:
`metadata.videoMediaMp4Url ? '.mp4' : '.m4a'`. -/
def dlExtension (metadata : InputMetadata) : String :=
  if jsTruthy metadata.videoMediaMp4Url then ".mp4" else ".m4a"

/-- The file name chosen by `downloadFile`: `downloadId + extension`. -/
def dlFileName (downloadId : String) (metadata : InputMetadata) : String :=
  downloadId ++ dlExtension metadata

/-- The path chosen by `downloadFile`:
`path.join(DOWNLOAD_DIR, fileName)`. -/
def dlFilePath (downloadId : String) (metadata : InputMetadata) : List String :=
  [DOWNLOAD_DIR, dlFileName downloadId metadata]

/-- The cache entry stored by a successful `downloadFile`. -/
def dlEntry (downloadId : String) (metadata : InputMetadata) (now : Nat) : CacheEntry :=
  { filePath := dlFilePath downloadId metadata
    cleanupTimer := true
    metadata :=
      { title := metadata.title
        artist := metadata.artist
        createdAt := now
        extension := dlExtension metadata } }

/-- `downloadFile(url, metadata)`.  `downloadId` is the fresh `uuidv4()`,
`now` is `Date.now()`, and `fetchResult` is the outcome of the
`axios.get` + `pipeline` stream write (`none` = success).  On success the
file exists, a cleanup timer is armed and the record is inserted; on
failure the partial file is unlinked (ignoring unlink errors), the cache
is untouched and a `DownloadFailedError` is thrown. -/
def downloadFile (st : DMState) (downloadId : String) (metadata : InputMetadata)
    (fetchResult : Option String) (now : Nat) :
    DMState × Except DownloadFailedError DownloadResult :=
  match fetchResult with
  | none =>
    ({ downloadCache :=
         (downloadId, dlEntry downloadId metadata now)
           :: st.downloadCache.filter (fun p => p.1 != downloadId)
       files := dlFilePath downloadId metadata :: st.files },
     .ok { downloadId := downloadId
           filePath := dlFilePath downloadId metadata
           fileName := dlFileName downloadId metadata })
  | some errMessage =>
    ({ downloadCache := st.downloadCache
       files := st.files.filter (fun q => q != dlFilePath downloadId metadata) },
     .error { message := "Download failed: " ++ errMessage })

/-- `getDownloadInfo(downloadId)`: `downloadCache.get(downloadId) || null`. -/
def getDownloadInfo (st : DMState) (downloadId : String) : Option CacheEntry :=
  st.downloadCache.lookup downloadId

/-- `cleanupDownload(downloadId)`: no-op on a missing record; otherwise
clear the pending timer, best-effort-unlink the file (a filesystem error
is logged, not escalated) and remove the record from the cache. -/
def cleanupDownload (st : DMState) (downloadId : String) : DMState :=
  match st.downloadCache.lookup downloadId with
  | none => st
  | some info =>
    { downloadCache := st.downloadCache.filter (fun p => p.1 != downloadId)
      files := st.files.filter (fun q => q != info.filePath) }

/-- `manualCleanup(downloadId)`: `false` when no record exists, otherwise
run `cleanupDownload` and return `true`. -/
def manualCleanup (st : DMState) (downloadId : String) : DMState × Bool :=
  match st.downloadCache.lookup downloadId with
  | none => (st, false)
  | some _ => (cleanupDownload st downloadId, true)

/-- One entry of `getStats().downloads`. -/
structure StatEntry where
  id : String
  fileName : String
  metadata : StoredMetadata
deriving DecidableEq

/-- The value returned by `getStats()`. -/
structure Stats where
  activeDownloads : Nat
  downloads : List StatEntry
deriving DecidableEq

/-- `getStats()`: the cache size and, per entry, the id, the base name of
its file path and its metadata. -/
def getStats (st : DMState) : Stats :=
  { activeDownloads := st.downloadCache.length
    downloads := st.downloadCache.map (fun p =>
      { id := p.1, fileName := p.2.filePath.getLastD "", metadata := p.2.metadata }) }

/-! ## The CharPoolDecoder as the specification describes it

These definitions follow the words of spec §4.1, to be compared with
`registerCharPool` above: symbols map to their 6-bit value via the
64-symbol alphabet `A-Z a-z 0-9 + /` in that order (anything else maps
to 0); an idealized unbounded bit accumulator is maintained; whenever it
holds at least 8 bits the high 8 bits are extracted as an output byte;
a resulting zero byte is dropped when produced while processing one of
the final two input symbols; empty input yields empty output. -/

/-- Spec §4.1 symbol value: position in `A-Z a-z 0-9 + /`, 0 outside. -/
def specSixBit (ch : Nat) : Nat :=
  if 65 ≤ ch ∧ ch ≤ 90 then ch - 65
  else if 97 ≤ ch ∧ ch ≤ 122 then ch - 97 + 26
  else if 48 ≤ ch ∧ ch ≤ 57 then ch - 48 + 52
  else if ch = 43 then 62
  else if ch = 47 then 63
  else 0

/-- Spec §4.1 extraction: while the accumulator holds at least 8 bits,
take the high 8 bits as a byte, dropping a zero byte when
`suppressZero` is set. -/
def specDrain (acc : Nat) (suppressZero : Bool) : Nat → Nat → List Nat × Nat
  | 0, bits => ([], bits)
  | fuel + 1, bits =>
    if 8 ≤ bits then
      let bits2 := bits - 8
      let b := acc / 2 ^ bits2 % 256
      let r := specDrain acc suppressZero fuel bits2
      ((if b = 0 ∧ suppressZero = true then r.1 else b :: r.1), r.2)
    else ([], bits)

/-- Spec §4.1 main loop over the input symbols, with an unbounded
accumulator; zero bytes are suppressed while processing one of the final
two input symbols. -/
def specGo : Nat → Nat → List Nat → List Nat
  | _, _, [] => []
  | acc, bits, ch :: rest =>
    let acc2 := acc * 64 + specSixBit ch
    let bits2 := bits + 6
    let r := specDrain acc2 (decide (rest.length < 2)) bits2 bits2
    r.1 ++ specGo acc2 r.2 rest

/-- The CharPoolDecoder exactly as spec §4.1 words it. -/
def charPoolDecoderSpec (input : List Nat) : List Nat :=
  specGo 0 0 input

/-! ## Statement helpers and test fixtures -/

/-- Well-formedness of one cache record: its extension is one of the two
fixed media extensions and the base name of its file path is the
identifier followed by that extension. -/
def entryWF (id : String) (e : CacheEntry) : Prop :=
  (e.metadata.extension = ".mp4" ∨ e.metadata.extension = ".m4a")
  ∧ e.filePath.getLastD "" = id ++ e.metadata.extension

/-- Every record of the cache is well-formed. -/
def cacheWF (st : DMState) : Prop :=
  ∀ p ∈ st.downloadCache, entryWF p.1 p.2

/-- A concrete cache entry used to exercise the lifecycle theorems. -/
def testEntry : CacheEntry :=
  { filePath := [DOWNLOAD_DIR, "a.m4a"]
    cleanupTimer := true
    metadata := { title := none, artist := none, createdAt := 0, extension := ".m4a" } }

/-- A concrete one-record state used to exercise the lifecycle theorems. -/
def testState : DMState :=
  { downloadCache := [("a", testEntry)]
    files := [[DOWNLOAD_DIR, "a.m4a"]] }

/-! ## Stream-cipher lemmas -/

theorem prga_length (l : List Nat) : ∀ S b h, (prga S b h l).length = l.length := by
  induction l with
  | nil => intro S b h; rfl
  | cons x rest ih =>
    intro S b h
    simp only [prga, List.length_cons]
    rw [ih]

theorem prga_prga (l : List Nat) : ∀ S b h, prga S b h (prga S b h l) = l := by
  induction l with
  | nil => intro S b h; rfl
  | cons x rest ih =>
    intro S b h
    simp only [prga]
    rw [Nat.xor_cancel_right, ih]

/-- Claim C1: the StreamCipherEngine inlined in `processRecording` (KSA
over the fixed secret pool, then the PRGA XOR-combine) is its own
inverse, and each application produces exactly as many output bytes as
input bytes. -/
theorem streamCipher_selfInverse (P : List Nat) :
    rc4Process REGISTERED_SECRET_CHAR_POOL (rc4Process REGISTERED_SECRET_CHAR_POOL P) = P
    ∧ (rc4Process REGISTERED_SECRET_CHAR_POOL P).length = P.length :=
  ⟨prga_prga P _ 0 0, prga_length P _ 0 0⟩

/-! ## CharPoolDecoder length bound -/

theorem drainAcc_len (l : Nat) (keep : Bool) :
    ∀ fuel c, 8 * (drainAcc l keep fuel c).1.length + (drainAcc l keep fuel c).2 ≤ c := by
  intro fuel
  induction fuel with
  | zero => intro c; simp [drainAcc]
  | succ n ih =>
    intro c
    by_cases h : 8 ≤ c
    · simp only [drainAcc, if_pos h]
      have := ih (c - 8)
      by_cases hb : ((l >>> (c - 8)) &&& 255) ≠ 0 ∨ keep = true
      · rw [if_pos hb]
        simp only [List.length_cons]
        omega
      · rw [if_neg hb]
        omega
    · simp only [drainAcc, if_neg h]
      simp

theorem charPoolGo_len (key : List Nat) :
    ∀ l c, 8 * (charPoolGo l c key).length ≤ 6 * key.length + c := by
  induction key with
  | nil => intro l c; simp [charPoolGo]
  | cons ch rest ih =>
    intro l c
    simp only [charPoolGo, List.length_append, List.length_cons]
    have h1 := drainAcc_len (((l <<< 6) + sixBitValue ch) % 4294967296)
      (decide (2 ≤ rest.length)) (c + 6) (c + 6)
    have h2 := ih (((l <<< 6) + sixBitValue ch) % 4294967296)
      (drainAcc (((l <<< 6) + sixBitValue ch) % 4294967296)
        (decide (2 ≤ rest.length)) (c + 6) (c + 6)).2
    omega

/-- Claim C7 is false as stated: on the empty input string the decoder
produces the empty byte sequence, whose length is not strictly less than
the input's length. -/
theorem registerCharPool_length_counterexample :
    ¬ ((registerCharPool []).length < ([] : List Nat).length) := by
  decide

/-- Claim C7, amended: for every nonempty input string the produced byte
sequence is strictly shorter than the input. -/
theorem registerCharPool_length_lt (key : List Nat) (h : key ≠ []) :
    (registerCharPool key).length < key.length := by
  have hlen : 1 ≤ key.length := by
    cases key with
    | nil => exact absurd rfl h
    | cons a t => simp
  have := charPoolGo_len key 0 0
  unfold registerCharPool
  omega

theorem registerCharPool_length_lt_witness :
    ([65] : List Nat) ≠ [] ∧ (registerCharPool [65]).length < [65].length :=
  ⟨by decide, registerCharPool_length_lt [65] (by decide)⟩

/-! ## CharPoolDecoder refines the specification's decoder -/

set_option maxRecDepth 8000 in
theorem sixBitValue_eq_spec (ch : Nat) : sixBitValue ch = specSixBit ch := by
  by_cases h : ch < 128
  · have hall : ∀ c ∈ List.range 128, sixBitValue c = specSixBit c := by decide
    exact hall ch (List.mem_range.mpr h)
  · have hsmall : ∀ x ∈ alphabetCodes, x < 128 := by decide
    have hnotmem : ch ∉ alphabetCodes := fun hmem => h (hsmall ch hmem)
    have hidx : alphabetCodes.indexOf ch = alphabetCodes.length :=
      List.indexOf_eq_length.mpr hnotmem
    have hlen : alphabetCodes.length = 64 := by decide
    have hL : sixBitValue ch = 0 := by
      simp only [sixBitValue, hidx, hlen]
      norm_num
    have hR : specSixBit ch = 0 := by
      simp only [specSixBit]
      rw [if_neg (by omega), if_neg (by omega), if_neg (by omega),
        if_neg (by omega), if_neg (by omega)]
    rw [hL, hR]

theorem extractByte_eq (acc c2 : Nat) (h : c2 + 8 ≤ 32) :
    ((acc % 4294967296) >>> c2) &&& 255 = acc / 2 ^ c2 % 256 := by
  obtain ⟨d, hd⟩ : ∃ d, 32 = c2 + (8 + d) := ⟨32 - (c2 + 8), by omega⟩
  have h255 : (255 : Nat) = 2 ^ 8 - 1 := by norm_num
  have h32 : (4294967296 : Nat) = 2 ^ 32 := by norm_num
  rw [Nat.shiftRight_eq_div_pow, h255, Nat.and_pow_two_sub_one_eq_mod, h32]
  conv_rhs => rw [← Nat.div_add_mod acc (2 ^ 32)]
  rw [hd, Nat.pow_add, Nat.mul_assoc,
    Nat.mul_add_div (Nat.two_pow_pos c2), Nat.pow_add]
  have h256 : (2 : Nat) ^ 8 = 256 := by norm_num
  rw [h256, Nat.mul_assoc, Nat.mul_add_mod]

theorem drainAcc_eq_spec (acc : Nat) (s : Bool) :
    ∀ fuel bits, bits ≤ 32 →
      drainAcc (acc % 4294967296) (!s) fuel bits = specDrain acc s fuel bits := by
  intro fuel
  induction fuel with
  | zero => intro bits _; rfl
  | succ n ih =>
    intro bits hb
    by_cases h : 8 ≤ bits
    · simp only [drainAcc, specDrain, if_pos h]
      rw [extractByte_eq acc (bits - 8) (by omega), ih (bits - 8) (by omega)]
      by_cases hz : acc / 2 ^ (bits - 8) % 256 = 0
      · cases s <;> simp [hz]
      · cases s <;> simp [hz]
    · simp only [drainAcc, specDrain, if_neg h]

theorem specDrain_snd_lt (acc : Nat) (s : Bool) :
    ∀ fuel bits, bits ≤ fuel + 7 → (specDrain acc s fuel bits).2 < 8 := by
  intro fuel
  induction fuel with
  | zero =>
    intro bits hb
    simp only [specDrain]
    omega
  | succ n ih =>
    intro bits hb
    by_cases h : 8 ≤ bits
    · simp only [specDrain, if_pos h]
      exact ih (bits - 8) (by omega)
    · simp only [specDrain, if_neg h]
      omega

theorem decide_le_eq_not_decide_lt (n : Nat) :
    decide (2 ≤ n) = !decide (n < 2) := by
  by_cases h2 : n < 2
  · have hn : ¬ (2 ≤ n) := by omega
    simp [h2, hn]
  · have hn : 2 ≤ n := by omega
    simp [h2, hn]

theorem charPoolGo_eq_spec (key : List Nat) :
    ∀ acc bits, bits < 8 →
      charPoolGo (acc % 4294967296) bits key = specGo acc bits key := by
  induction key with
  | nil => intro acc bits _; rfl
  | cons ch rest ih =>
    intro acc bits hb
    simp only [charPoolGo, specGo]
    have hacc : (((acc % 4294967296) <<< 6) + sixBitValue ch) % 4294967296
        = (acc * 64 + specSixBit ch) % 4294967296 := by
      rw [sixBitValue_eq_spec ch, Nat.shiftLeft_eq]
      have h64 : (2 : Nat) ^ 6 = 64 := by norm_num
      rw [h64]
      omega
    rw [hacc, decide_le_eq_not_decide_lt rest.length,
      drainAcc_eq_spec (acc * 64 + specSixBit ch) (decide (rest.length < 2))
        (bits + 6) (bits + 6) (by omega)]
    rw [ih (acc * 64 + specSixBit ch) _
      (specDrain_snd_lt (acc * 64 + specSixBit ch) (decide (rest.length < 2))
        (bits + 6) (bits + 6) (by omega))]

/-- Claim C2: `registerCharPool` computes exactly the byte sequence the
specification's CharPoolDecoder describes (6-bit values via the fixed
64-symbol alphabet with unknown characters mapping to 0, a bit
accumulator whose high 8 bits are emitted whenever at least 8 bits are
pending, suppression of zero bytes produced while processing one of the
final two input symbols), and empty input yields empty output. -/
theorem registerCharPool_matches_spec :
    (∀ key : List Nat, registerCharPool key = charPoolDecoderSpec key)
    ∧ registerCharPool [] = [] := by
  constructor
  · intro key
    have h := charPoolGo_eq_spec key 0 0 (by omega)
    simpa [registerCharPool, charPoolDecoderSpec] using h
  · rfl

/-! ## processRecording / decryptMediaUrl -/

/-- Claim C3: for a marker-prefixed input, `processRecording` throws the
decode validation error exactly when the decoded-and-decrypted remainder
does not start with `"http"`; the error carries the original input and
the malformed output, and an `ok` result is exactly the decoded value
when it does start with `"http"` — a decoded string is never returned
unvalidated. -/
theorem processRecording_validation_gate (u : List Nat)
    (hpre : eMarker.isPrefixOf u = true) :
    ((processRecording u =
        .error ⟨u, rc4Process REGISTERED_SECRET_CHAR_POOL (registerCharPool (u.drop 2))⟩)
      ↔ httpCodes.isPrefixOf
          (rc4Process REGISTERED_SECRET_CHAR_POOL (registerCharPool (u.drop 2))) = false)
    ∧ ((processRecording u =
        .ok (rc4Process REGISTERED_SECRET_CHAR_POOL (registerCharPool (u.drop 2))))
      ↔ httpCodes.isPrefixOf
          (rc4Process REGISTERED_SECRET_CHAR_POOL (registerCharPool (u.drop 2))) = true)
    ∧ (∀ r, processRecording u = .ok r → httpCodes.isPrefixOf r = true) := by
  have hlen : 2 ≤ u.length := by
    have h := (List.isPrefixOf_iff_prefix.mp hpre).length_le
    simpa [eMarker] using h
  have hcond : ¬ (u.length < 2 ∨ ¬ (eMarker.isPrefixOf u = true)) := by
    push_neg
    exact ⟨by omega, hpre⟩
  unfold processRecording
  rw [if_neg hcond]
  by_cases hd : httpCodes.isPrefixOf
      (rc4Process REGISTERED_SECRET_CHAR_POOL (registerCharPool (u.drop 2))) = true
  · rw [if_pos hd]
    refine ⟨⟨fun h => absurd h (by simp), fun h => by rw [h] at hd; exact absurd hd (by simp)⟩,
      ⟨fun _ => hd, fun _ => rfl⟩, fun r hr => ?_⟩
    cases hr
    exact hd
  · rw [if_neg hd]
    refine ⟨⟨fun _ => by simpa only [Bool.not_eq_true] using hd, fun _ => rfl⟩,
      ⟨fun h => absurd h (by simp), fun h => absurd hd (by simp [h])⟩,
      fun r hr => absurd hr (by simp)⟩

theorem processRecording_validation_gate_witness :
    eMarker.isPrefixOf [101, 58] = true
    ∧ ((processRecording [101, 58] =
        .error ⟨[101, 58],
          rc4Process REGISTERED_SECRET_CHAR_POOL (registerCharPool ([101, 58].drop 2))⟩)
      ↔ httpCodes.isPrefixOf
          (rc4Process REGISTERED_SECRET_CHAR_POOL
            (registerCharPool ([101, 58].drop 2))) = false) :=
  ⟨rfl, (processRecording_validation_gate [101, 58] rfl).1⟩

/-- Claim C6: `decryptMediaUrl` maps `null` and the empty string to
`null`, and returns any other input unchanged when it does not start
with the 2-character obfuscation marker `"e:"`. -/
theorem decryptMediaUrl_passthrough :
    decryptMediaUrl none = .ok none
    ∧ decryptMediaUrl (some []) = .ok none
    ∧ ∀ s : List Nat, s ≠ [] → eMarker.isPrefixOf s = false →
        decryptMediaUrl (some s) = .ok (some s) := by
  refine ⟨rfl, rfl, fun s hne hpre => ?_⟩
  have hempty : s.isEmpty = false := by
    cases s with
    | nil => exact absurd rfl hne
    | cons a t => rfl
  have hcond : s.length < 2 ∨ ¬ (eMarker.isPrefixOf s = true) := by
    right
    simp [hpre]
  simp only [decryptMediaUrl, hempty, Bool.false_eq_true, if_neg]
  unfold processRecording
  rw [if_pos hcond]
  rfl

theorem decryptMediaUrl_passthrough_witness :
    ([120] : List Nat) ≠ []
    ∧ eMarker.isPrefixOf [120] = false
    ∧ decryptMediaUrl (some [120]) = .ok (some [120]) :=
  ⟨by decide, rfl, decryptMediaUrl_passthrough.2.2 [120] (by decide) rfl⟩

/-- Claim C8: on the exact input `"e:"` (marker with empty payload) the
decoder neither returns `null` nor the input unchanged: the payload
decodes to the empty byte sequence, the decrypted string is empty, the
`"http"` check fails and the decode validation error is raised, carrying
the input and the empty output. -/
theorem marker_only_input_raises :
    registerCharPool ([101, 58].drop 2) = []
    ∧ processRecording [101, 58] = .error ⟨[101, 58], []⟩
    ∧ decryptMediaUrl (some [101, 58]) = .error ⟨[101, 58], []⟩ :=
  ⟨rfl, rfl, rfl⟩

/-- Claim C10: the decryption pipeline is deterministic — its result is a
pure function of the input and of the secret character pool, which is
itself computed once from the fixed embedded key; no other state
influences the computation, so equal inputs give equal results
(identical `ok` values or identical error contents). -/
theorem decrypt_deterministic :
    REGISTERED_SECRET_CHAR_POOL = registerCharPool SECRET_KEY
    ∧ (∀ u : List Nat, processRecording u = processRecordingWith (registerCharPool SECRET_KEY) u)
    ∧ (∀ m : Option (List Nat), decryptMediaUrl m = decryptMediaUrl m) :=
  ⟨rfl, fun _ => rfl, fun _ => rfl⟩

/-! ## Download manager lemmas -/

theorem lookup_filter_self {α β : Type} [BEq α] [LawfulBEq α] (id : α) :
    ∀ l : List (α × β), (l.filter (fun p => p.1 != id)).lookup id = none := by
  intro l
  induction l with
  | nil => rfl
  | cons p t ih =>
    by_cases h : p.1 = id
    · simp only [List.filter_cons]
      have hb : (p.1 != id) = false := by simp [h]
      rw [hb]
      exact ih
    · have hb : (p.1 != id) = true := by simp [h]
      have hb2 : (id == p.1) = false := by
        simp [beq_eq_false_iff_ne]
        exact fun e => h e.symm
      simp only [List.filter_cons, hb, if_pos]
      rw [List.lookup_cons, hb2]
      exact ih

theorem lookup_filter_ne {α β : Type} [BEq α] [LawfulBEq α] {j id : α} (h : j ≠ id) :
    ∀ l : List (α × β), (l.filter (fun p => p.1 != id)).lookup j = l.lookup j := by
  intro l
  induction l with
  | nil => rfl
  | cons p t ih =>
    by_cases hp : p.1 = id
    · have hb : (p.1 != id) = false := by simp [hp]
      have hb2 : (j == p.1) = false := by
        simp [beq_eq_false_iff_ne]
        exact fun e => h (e.trans hp)
      simp only [List.filter_cons, hb]
      rw [if_neg (by simp), List.lookup_cons (k := p.1), hb2]
      exact ih
    · have hb : (p.1 != id) = true := by simp [hp]
      simp only [List.filter_cons, hb, if_pos]
      rw [List.lookup_cons, List.lookup_cons]
      cases hjp : (j == p.1) with
      | true => rfl
      | false => exact ih

theorem cleanupDownload_lookup_none {st : DMState} {id : String}
    (h : st.downloadCache.lookup id = none) : cleanupDownload st id = st := by
  unfold cleanupDownload
  rw [h]

theorem cleanupDownload_lookup_some {st : DMState} {id : String} {info : CacheEntry}
    (h : st.downloadCache.lookup id = some info) :
    cleanupDownload st id =
      { downloadCache := st.downloadCache.filter (fun p => p.1 != id)
        files := st.files.filter (fun q => q != info.filePath) } := by
  unfold cleanupDownload
  rw [h]

theorem manualCleanup_lookup_none {st : DMState} {id : String}
    (h : st.downloadCache.lookup id = none) : manualCleanup st id = (st, false) := by
  unfold manualCleanup
  rw [h]

theorem manualCleanup_lookup_some {st : DMState} {id : String} {info : CacheEntry}
    (h : st.downloadCache.lookup id = some info) :
    manualCleanup st id = (cleanupDownload st id, true) := by
  unfold manualCleanup
  rw [h]

theorem cleanupDownload_cache_lookup_none (st : DMState) (id : String) :
    (cleanupDownload st id).downloadCache.lookup id = none
    ∨ cleanupDownload st id = st := by
  cases h : st.downloadCache.lookup id with
  | none => exact Or.inr (cleanupDownload_lookup_none h)
  | some info =>
    left
    rw [cleanupDownload_lookup_some h]
    exact lookup_filter_self id st.downloadCache

/-- Claim C4: a failed fetch/write leaves the cache untouched, deletes
the partial file and raises `DownloadFailedError`; a record (with the
armed cleanup timer) is inserted, and the file kept, only on the success
path. -/
theorem downloadFile_failure_atomicity (st : DMState) (id : String)
    (md : InputMetadata) (now : Nat) :
    (∀ msg : String,
      (downloadFile st id md (some msg) now).1.downloadCache = st.downloadCache
      ∧ (downloadFile st id md (some msg) now).2 = .error ⟨"Download failed: " ++ msg⟩
      ∧ dlFilePath id md ∉ (downloadFile st id md (some msg) now).1.files)
    ∧ ((downloadFile st id md none now).2 = .ok ⟨id, dlFilePath id md, dlFileName id md⟩
       ∧ (downloadFile st id md none now).1.downloadCache.lookup id = some (dlEntry id md now)
       ∧ (dlEntry id md now).cleanupTimer = true
       ∧ (downloadFile st id md none now).1.files = dlFilePath id md :: st.files) := by
  refine ⟨fun msg => ⟨rfl, rfl, fun hmem => ?_⟩, rfl, ?_, rfl, rfl⟩
  · have hc := (List.mem_filter.mp hmem).2
    simp at hc
  · rw [show (downloadFile st id md none now).1.downloadCache
        = (id, dlEntry id md now) :: st.downloadCache.filter (fun p => p.1 != id) from rfl,
      List.lookup_cons]
    simp

/-- Claim C5: `manualCleanup` returns `true` exactly when a record
existed; it removes the record (cancelling its timer with it) and
best-effort-deletes the backing file, after which a lookup misses; on an
unknown identifier it returns `false` with no side effects, so a second
eviction — manual or the expiry timer firing afterwards — is a no-op
that neither double-deletes nor raises. -/
theorem manualCleanup_evict_behavior (st : DMState) (id : String) :
    (st.downloadCache.lookup id = none → manualCleanup st id = (st, false))
    ∧ (∀ info : CacheEntry, st.downloadCache.lookup id = some info →
        manualCleanup st id = (cleanupDownload st id, true)
        ∧ (cleanupDownload st id).downloadCache.lookup id = none
        ∧ info.filePath ∉ (cleanupDownload st id).files
        ∧ manualCleanup (cleanupDownload st id) id = (cleanupDownload st id, false)
        ∧ cleanupDownload (cleanupDownload st id) id = cleanupDownload st id) := by
  refine ⟨fun h => manualCleanup_lookup_none h, fun info h => ?_⟩
  have hnone : (cleanupDownload st id).downloadCache.lookup id = none := by
    rw [cleanupDownload_lookup_some h]
    exact lookup_filter_self id st.downloadCache
  refine ⟨manualCleanup_lookup_some h, hnone, ?_,
    manualCleanup_lookup_none hnone, cleanupDownload_lookup_none hnone⟩
  rw [cleanupDownload_lookup_some h]
  intro hmem
  have hc := (List.mem_filter.mp hmem).2
  simp at hc

theorem manualCleanup_evict_behavior_witness :
    testState.downloadCache.lookup "a" = some testEntry
    ∧ manualCleanup testState "b" = (testState, false)
    ∧ manualCleanup testState "a" = (cleanupDownload testState "a", true) :=
  ⟨rfl, (manualCleanup_evict_behavior testState "b").1 rfl,
    ((manualCleanup_evict_behavior testState "a").2 testEntry rfl).1⟩

/-- Claim C9: every cache record's extension is `".mp4"` when it was
created with `videoMediaMp4Url` set and `".m4a"` otherwise, the base
name of its file path is the identifier followed by that extension, and
each operation preserves this invariant, only inserting or removing
whole records and never modifying another record. -/
theorem downloadCache_record_invariant (st : DMState) (id : String)
    (md : InputMetadata) (now : Nat) :
    ((downloadFile st id md none now).1.downloadCache.lookup id = some (dlEntry id md now))
    ∧ (dlEntry id md now).metadata.extension
        = (if jsTruthy md.videoMediaMp4Url then ".mp4" else ".m4a")
    ∧ entryWF id (dlEntry id md now)
    ∧ (cacheWF st →
        (∀ fetchResult : Option String, cacheWF (downloadFile st id md fetchResult now).1)
        ∧ cacheWF (cleanupDownload st id)
        ∧ cacheWF (manualCleanup st id).1)
    ∧ (∀ j, j ≠ id →
        (∀ fetchResult, (downloadFile st id md fetchResult now).1.downloadCache.lookup j
          = st.downloadCache.lookup j)
        ∧ (cleanupDownload st id).downloadCache.lookup j = st.downloadCache.lookup j
        ∧ (manualCleanup st id).1.downloadCache.lookup j = st.downloadCache.lookup j)
    ∧ (∀ j, getDownloadInfo st j = st.downloadCache.lookup j) := by
  have hWFnew : entryWF id (dlEntry id md now) := by
    unfold entryWF dlEntry dlFilePath dlFileName dlExtension
    by_cases h : jsTruthy md.videoMediaMp4Url = true <;> simp [h]
  refine ⟨?_, rfl, hWFnew, fun hWF => ⟨fun fetchResult => ?_, ?_, ?_⟩, fun j hj => ⟨fun fetchResult => ?_, ?_, ?_⟩, fun j => rfl⟩
  · rw [show (downloadFile st id md none now).1.downloadCache
        = (id, dlEntry id md now) :: st.downloadCache.filter (fun p => p.1 != id) from rfl,
      List.lookup_cons]
    simp
  · -- downloadFile preserves cacheWF
    cases fetchResult with
    | none =>
      intro p hp
      rcases List.mem_cons.mp hp with hph | hpt
      · rw [hph]
        exact hWFnew
      · exact hWF p (List.mem_of_mem_filter hpt)
    | some msg => exact hWF
  · -- cleanupDownload preserves cacheWF
    cases h : st.downloadCache.lookup id with
    | none => rw [cleanupDownload_lookup_none h]; exact hWF
    | some info =>
      rw [cleanupDownload_lookup_some h]
      intro p hp
      exact hWF p (List.mem_of_mem_filter hp)
  · -- manualCleanup preserves cacheWF
    cases h : st.downloadCache.lookup id with
    | none => rw [manualCleanup_lookup_none h]; exact hWF
    | some info =>
      rw [manualCleanup_lookup_some h, cleanupDownload_lookup_some h]
      intro p hp
      exact hWF p (List.mem_of_mem_filter hp)
  · -- downloadFile leaves other records as they were
    cases fetchResult with
    | none =>
      rw [show (downloadFile st id md none now).1.downloadCache
          = (id, dlEntry id md now) :: st.downloadCache.filter (fun p => p.1 != id) from rfl,
        List.lookup_cons]
      have hb : (j == id) = false := by
        simp [beq_eq_false_iff_ne]
        exact hj
      rw [hb]
      exact lookup_filter_ne hj st.downloadCache
    | some msg => rfl
  · -- cleanupDownload leaves other records as they were
    cases h : st.downloadCache.lookup id with
    | none => rw [cleanupDownload_lookup_none h]
    | some info =>
      rw [cleanupDownload_lookup_some h]
      exact lookup_filter_ne hj st.downloadCache
  · -- manualCleanup leaves other records as they were
    cases h : st.downloadCache.lookup id with
    | none => rw [manualCleanup_lookup_none h]
    | some info =>
      rw [manualCleanup_lookup_some h, cleanupDownload_lookup_some h]
      exact lookup_filter_ne hj st.downloadCache

theorem downloadCache_record_invariant_witness :
    cacheWF testState ∧ cacheWF (cleanupDownload testState "a") :=
  ⟨by unfold cacheWF entryWF; decide,
    ((downloadCache_record_invariant testState "a" ⟨none, none, none⟩ 0).2.2.2.1
      (by unfold cacheWF entryWF; decide)).2.1⟩

end SDownloader
